import Mathlib

/-!
Shallow embedding of the LCA disclosure-file cleaning pipeline
(`scripts/clean_lca_xlsx_to_csv.py` and `scripts/backfill_clean_all.py`).

Conventions of the embedding:
* a pandas cell that may be missing (`pd.NA` / `NaN` / `NaT`) is an `Option`;
* float arithmetic on wages is carried out in `ℚ` (the guard-rail and
  averaging logic of the scripts does not depend on binary rounding);
* vectorized column operations are modelled row-by-row, which the scripts'
  own design notes state is semantics-preserving;
* strings are compared and transformed code-point-wise, matching Python's
  `str` semantics on the ASCII data these scripts process.
-/

/-! ### Generic character and list helpers -/

/-- The character class `\w` of the scripts' regexes (`[^\w]+` in `norm_col`
and `normalize_wage_unit`), restricted to ASCII: letters, digits and the
underscore. -/
def isWordChar (c : Char) : Bool :=
  (65 ≤ c.toNat && c.toNat ≤ 90) || (97 ≤ c.toNat && c.toNat ≤ 122) ||
    (48 ≤ c.toNat && c.toNat ≤ 57) || c.toNat == 95

/-- An ASCII decimal digit, the class `\d` of the scripts' regexes. -/
def isDigitCh (c : Char) : Bool :=
  48 ≤ c.toNat && c.toNat ≤ 57

/-- Two-sided strip: Python's `str.strip()` (with `p` the whitespace class)
and `str.strip("_")` (with `p` testing for an underscore). -/
def strip2 (p : Char → Bool) (l : List Char) : List Char :=
  ((l.dropWhile p).reverse.dropWhile p).reverse

/-- Python `s.strip()` on a string value. -/
def pyStrip (s : String) : String :=
  ⟨strip2 Char.isWhitespace s.data⟩

/-- Worker for `re.sub(r"[^\w]+", "_", s)`: the flag records whether the
previous character was part of a non-word run (whose single replacement
underscore has already been emitted). -/
def substNonWordAux : Bool → List Char → List Char
  | _, [] => []
  | inRun, c :: cs =>
    if isWordChar c then c :: substNonWordAux false cs
    else if inRun then substNonWordAux true cs
    else '_' :: substNonWordAux true cs

/-- Models `re.sub(r"[^\w]+", "_", s)`: every maximal run of non-word characters
becomes a single underscore. -/
def substNonWord (l : List Char) : List Char :=
  substNonWordAux false l

/-- Worker for `re.sub(r"_+", "_", s)`: the flag records whether the
previous character kept in the output was an underscore. -/
def collapseUSAux : Bool → List Char → List Char
  | _, [] => []
  | prevUS, c :: cs =>
    if c = '_' then
      if prevUS then collapseUSAux true cs
      else '_' :: collapseUSAux true cs
    else c :: collapseUSAux false cs

/-- Models `re.sub(r"_+", "_", s)`: collapse runs of underscores. -/
def collapseUS (l : List Char) : List Char :=
  collapseUSAux false l

/-- Python `.strip("_")`. -/
def stripUS (l : List Char) : List Char :=
  strip2 (fun c => c = '_') l

/-- The character-list body of `norm_col`: strip, lowercase, replace non-word
runs by a single underscore, collapse repeated underscores and strip leading
and trailing underscores. -/
def normList (l : List Char) : List Char :=
  stripUS (collapseUS (substNonWord ((strip2 Char.isWhitespace l).map Char.toLower)))

/-- Models `norm_col` as defined identically in both scripts. -/
def norm_col (name : String) : String :=
  ⟨normList name.data⟩

/-! ### Facts about the character helpers -/

theorem toNat_ofNat_valid (n : Nat) (h : n.isValidChar) : (Char.ofNat n).toNat = n := by
  unfold Char.ofNat
  rw [dif_pos h]
  rfl

theorem toLower_toNat (c : Char) :
    (Char.toLower c).toNat = if 65 ≤ c.toNat ∧ c.toNat ≤ 90 then c.toNat + 32 else c.toNat := by
  unfold Char.toLower
  by_cases h : c.toNat ≥ 65 ∧ c.toNat ≤ 90
  · rw [if_pos h, if_pos ⟨h.1, h.2⟩]
    exact toNat_ofNat_valid _ (Or.inl (by omega))
  · rw [if_neg h, if_neg (by omega)]

theorem toLower_eq_self {c : Char} (h : ¬(65 ≤ c.toNat ∧ c.toNat ≤ 90)) :
    Char.toLower c = c := by
  simp only [Char.toLower]
  rw [if_neg (by omega)]

theorem toLower_idem (c : Char) : (Char.toLower c).toLower = Char.toLower c := by
  have h1 := toLower_toNat c
  by_cases h : 65 ≤ c.toNat ∧ c.toNat ≤ 90
  · rw [if_pos h] at h1
    exact toLower_eq_self (by omega)
  · rw [if_neg h] at h1
    exact toLower_eq_self (by omega)

theorem isWordChar_toLower {c : Char} (h : isWordChar c = true) :
    isWordChar (Char.toLower c) = true := by
  have h1 := toLower_toNat c
  simp only [isWordChar, Bool.or_eq_true, Bool.and_eq_true, decide_eq_true_eq,
    beq_iff_eq] at h ⊢
  by_cases hc : 65 ≤ c.toNat ∧ c.toNat ≤ 90
  · rw [if_pos hc] at h1; omega
  · rw [if_neg hc] at h1; omega

theorem not_whitespace_of_word {c : Char} (h : isWordChar c = true) :
    Char.isWhitespace c = false := by
  simp only [isWordChar, Bool.or_eq_true, Bool.and_eq_true, decide_eq_true_eq,
    beq_iff_eq] at h
  by_contra hw
  rw [Bool.not_eq_false] at hw
  simp only [Char.isWhitespace, Bool.or_eq_true, decide_eq_true_eq] at hw
  rcases hw with ((hw | hw) | hw) | hw <;> (subst hw; exact absurd h (by decide))

theorem word_underscore : isWordChar '_' = true := by decide

theorem toLower_underscore : Char.toLower '_' = '_' := by decide

/-! ### Facts about the list helpers -/

theorem dropWhile_head?_false {p : α → Bool} {l : List α} {a : α}
    (h : (l.dropWhile p).head? = some a) : p a = false := by
  induction l with
  | nil => simp at h
  | cons c cs ih =>
    by_cases hc : p c
    · rw [List.dropWhile_cons_of_pos hc] at h; exact ih h
    · rw [List.dropWhile_cons_of_neg hc] at h
      simp only [List.head?_cons, Option.some.injEq] at h
      subst h
      exact Bool.eq_false_iff.mpr hc

theorem dropWhile_eq_self_of_head? {p : α → Bool} {l : List α}
    (h : ∀ a, l.head? = some a → p a = false) : l.dropWhile p = l := by
  cases l with
  | nil => rfl
  | cons c cs =>
    rw [List.dropWhile_cons_of_neg]
    simp [h c rfl]

theorem dropWhile_idem (p : α → Bool) (l : List α) :
    (l.dropWhile p).dropWhile p = l.dropWhile p := by
  apply dropWhile_eq_self_of_head?
  intro a ha
  exact dropWhile_head?_false ha

theorem getLast?_dropWhile_of_ne_nil {p : α → Bool} {l : List α}
    (h : l.dropWhile p ≠ []) : (l.dropWhile p).getLast? = l.getLast? := by
  conv_rhs => rw [← List.takeWhile_append_dropWhile (p := p) (l := l)]
  rw [List.getLast?_append]
  cases hl : (l.dropWhile p).getLast? with
  | none => exact absurd (List.getLast?_eq_none_iff.mp hl) h
  | some a => rfl

theorem strip2_idem (p : Char → Bool) (l : List Char) :
    strip2 p (strip2 p l) = strip2 p l := by
  have claim1 : ((l.dropWhile p).reverse.dropWhile p).reverse.dropWhile p
      = ((l.dropWhile p).reverse.dropWhile p).reverse := by
    apply dropWhile_eq_self_of_head?
    intro a ha
    rw [List.head?_reverse] at ha
    by_cases hBe : (l.dropWhile p).reverse.dropWhile p = []
    · rw [hBe] at ha
      simp at ha
    · rw [getLast?_dropWhile_of_ne_nil hBe, List.getLast?_reverse] at ha
      exact dropWhile_head?_false ha
  show (((strip2 p l).dropWhile p).reverse.dropWhile p).reverse = strip2 p l
  have h2 : (strip2 p l).dropWhile p = strip2 p l := claim1
  rw [h2]
  show ((((l.dropWhile p).reverse.dropWhile p).reverse).reverse.dropWhile p).reverse
      = strip2 p l
  rw [List.reverse_reverse, dropWhile_idem]
  rfl

theorem strip2_eq_self_of_forall {p : Char → Bool} {l : List Char}
    (h : ∀ c ∈ l, p c = false) : strip2 p l = l := by
  unfold strip2
  have h1 : l.dropWhile p = l := by
    apply dropWhile_eq_self_of_head?
    intro a ha
    exact h a (by cases l <;> simp_all)
  rw [h1]
  have h2 : l.reverse.dropWhile p = l.reverse := by
    apply dropWhile_eq_self_of_head?
    intro a ha
    apply h
    rw [← List.mem_reverse]
    cases hr : l.reverse with
    | nil => rw [hr] at ha; simp at ha
    | cons x xs =>
      rw [hr] at ha
      simp only [List.head?_cons, Option.some.injEq] at ha
      rw [← ha]
      exact List.mem_cons_self _ _
  rw [h2, List.reverse_reverse]

theorem mem_strip2 {p : Char → Bool} {l : List Char} {c : Char}
    (h : c ∈ strip2 p l) : c ∈ l := by
  unfold strip2 at h
  rw [List.mem_reverse] at h
  have h1 := (List.dropWhile_sublist (p := p) (l := (l.dropWhile p).reverse)).mem h
  rw [List.mem_reverse] at h1
  exact (List.dropWhile_sublist (p := p) (l := l)).mem h1

theorem map_eq_self_of_forall {f : α → α} {l : List α}
    (h : ∀ c ∈ l, f c = c) : l.map f = l := by
  induction l with
  | nil => rfl
  | cons c cs ih =>
    simp only [List.map_cons, h c (List.mem_cons_self c cs),
      ih (fun d hd => h d (List.mem_cons_of_mem c hd)), List.cons.injEq, and_self]

theorem mem_substNonWordAux_word {c : Char} :
    ∀ (b : Bool) (l : List Char), c ∈ substNonWordAux b l → isWordChar c = true := by
  intro b l
  induction l generalizing b with
  | nil => intro h; simp [substNonWordAux] at h
  | cons a cs ih =>
    intro h
    rw [substNonWordAux] at h
    by_cases ha : isWordChar a
    · rw [if_pos ha] at h
      rcases List.mem_cons.mp h with rfl | h2
      · exact ha
      · exact ih false h2
    · rw [if_neg ha] at h
      cases b with
      | true => exact ih true (by simpa using h)
      | false =>
        rcases List.mem_cons.mp (by simpa using h) with rfl | h2
        · exact word_underscore
        · exact ih true h2

theorem mem_substNonWord_word {l : List Char} {c : Char}
    (h : c ∈ substNonWord l) : isWordChar c = true :=
  mem_substNonWordAux_word false l h

theorem mem_substNonWordAux {c : Char} :
    ∀ (b : Bool) (l : List Char), c ∈ substNonWordAux b l → c ∈ l ∨ c = '_' := by
  intro b l
  induction l generalizing b with
  | nil => intro h; simp [substNonWordAux] at h
  | cons a cs ih =>
    intro h
    rw [substNonWordAux] at h
    by_cases ha : isWordChar a
    · rw [if_pos ha] at h
      rcases List.mem_cons.mp h with rfl | h2
      · exact Or.inl (List.mem_cons_self _ _)
      · rcases ih false h2 with h3 | h3
        · exact Or.inl (List.mem_cons_of_mem _ h3)
        · exact Or.inr h3
    · rw [if_neg ha] at h
      cases b with
      | true =>
        rcases ih true (by simpa using h) with h3 | h3
        · exact Or.inl (List.mem_cons_of_mem _ h3)
        · exact Or.inr h3
      | false =>
        rcases List.mem_cons.mp (by simpa using h) with rfl | h2
        · exact Or.inr rfl
        · rcases ih true h2 with h3 | h3
          · exact Or.inl (List.mem_cons_of_mem _ h3)
          · exact Or.inr h3

theorem mem_substNonWord {l : List Char} {c : Char}
    (h : c ∈ substNonWord l) : c ∈ l ∨ c = '_' :=
  mem_substNonWordAux false l h

theorem substNonWordAux_eq_self {l : List Char}
    (h : ∀ c ∈ l, isWordChar c = true) : ∀ b, substNonWordAux b l = l := by
  induction l with
  | nil => intro b; rfl
  | cons c cs ih =>
    intro b
    rw [substNonWordAux, if_pos (h c (List.mem_cons_self c cs))]
    rw [ih (fun d hd => h d (List.mem_cons_of_mem c hd)) false]

theorem substNonWord_eq_self {l : List Char}
    (h : ∀ c ∈ l, isWordChar c = true) : substNonWord l = l :=
  substNonWordAux_eq_self h false

/-- No two adjacent underscores. -/
def NoDoubleUS (l : List Char) : Prop :=
  l.Chain' (fun a b => ¬(a = '_' ∧ b = '_'))

theorem mem_collapseUSAux {c : Char} :
    ∀ (b : Bool) (l : List Char), c ∈ collapseUSAux b l → c ∈ l := by
  intro b l
  induction l generalizing b with
  | nil => intro h; simp [collapseUSAux] at h
  | cons a cs ih =>
    intro h
    rw [collapseUSAux] at h
    by_cases ha : a = '_'
    · rw [if_pos ha] at h
      cases b with
      | true => exact List.mem_cons_of_mem _ (ih true (by simpa using h))
      | false =>
        rcases List.mem_cons.mp (by simpa using h) with rfl | h2
        · exact ha ▸ List.mem_cons_self _ _
        · exact List.mem_cons_of_mem _ (ih true h2)
    · rw [if_neg ha] at h
      rcases List.mem_cons.mp h with rfl | h2
      · exact List.mem_cons_self _ _
      · exact List.mem_cons_of_mem _ (ih false h2)

theorem mem_collapseUS {l : List Char} {c : Char}
    (h : c ∈ collapseUS l) : c ∈ l :=
  mem_collapseUSAux false l h

theorem collapseUSAux_props (l : List Char) :
    ∀ b : Bool, NoDoubleUS (collapseUSAux b l) ∧
      (b = true → (collapseUSAux b l).head? ≠ some '_') := by
  induction l with
  | nil => intro b; exact ⟨List.chain'_nil, fun _ => by simp [collapseUSAux]⟩
  | cons a cs ih =>
    intro b
    rw [collapseUSAux]
    by_cases ha : a = '_'
    · rw [if_pos ha]
      cases b with
      | true =>
        rw [if_pos rfl]
        exact ⟨(ih true).1, fun _ => (ih true).2 rfl⟩
      | false =>
        rw [if_neg (by decide)]
        refine ⟨?_, fun hcontra => by cases hcontra⟩
        rw [NoDoubleUS, List.chain'_cons']
        refine ⟨?_, (ih true).1⟩
        intro y hy hc
        exact (ih true).2 rfl (by rw [Option.mem_def] at hy; rw [hy, hc.2])
    · rw [if_neg ha]
      refine ⟨?_, fun _ => by simp [ha]⟩
      rw [NoDoubleUS, List.chain'_cons']
      exact ⟨fun y _ hc => ha hc.1, (ih false).1⟩

theorem chain'_collapseUS (l : List Char) : NoDoubleUS (collapseUS l) :=
  (collapseUSAux_props l false).1

theorem collapseUSAux_eq_self {l : List Char} (h : NoDoubleUS l) :
    collapseUSAux false l = l ∧ (l.head? ≠ some '_' → collapseUSAux true l = l) := by
  induction l with
  | nil => exact ⟨rfl, fun _ => rfl⟩
  | cons a cs ih =>
    have htail : NoDoubleUS cs := (List.chain'_cons'.mp h).2
    have ihcs := ih htail
    constructor
    · rw [collapseUSAux]
      by_cases ha : a = '_'
      · rw [if_pos ha, if_neg (by decide)]
        have hhead : cs.head? ≠ some '_' := by
          intro hc
          exact (List.chain'_cons'.mp h).1 '_' (by rw [hc]; rfl) ⟨ha, rfl⟩
        rw [ihcs.2 hhead, ha]
      · rw [if_neg ha, ihcs.1]
    · intro hha
      have ha : ¬a = '_' := by
        intro hcontra
        exact hha (by rw [hcontra]; rfl)
      rw [collapseUSAux, if_neg ha, ihcs.1]

theorem collapseUS_eq_self {l : List Char} (h : NoDoubleUS l) : collapseUS l = l :=
  (collapseUSAux_eq_self h).1

theorem noDouble_dropWhile {p : Char → Bool} {l : List Char}
    (h : NoDoubleUS l) : NoDoubleUS (l.dropWhile p) := by
  induction l with
  | nil => exact List.chain'_nil
  | cons c cs ih =>
    by_cases hc : p c
    · rw [List.dropWhile_cons_of_pos hc]
      exact ih ((List.chain'_cons'.mp h).2)
    · rw [List.dropWhile_cons_of_neg hc]
      exact h

theorem noDouble_reverse {l : List Char} (h : NoDoubleUS l) : NoDoubleUS l.reverse := by
  rw [NoDoubleUS, List.chain'_reverse]
  exact h.imp (fun a b hab hc => hab ⟨hc.2, hc.1⟩)

theorem noDouble_strip2 {p : Char → Bool} {l : List Char}
    (h : NoDoubleUS l) : NoDoubleUS (strip2 p l) := by
  unfold strip2
  exact noDouble_reverse (noDouble_dropWhile (noDouble_reverse (noDouble_dropWhile h)))

theorem mem_normList {l : List Char} {c : Char} (h : c ∈ normList l) :
    c ∈ substNonWord ((strip2 Char.isWhitespace l).map Char.toLower) := by
  unfold normList stripUS at h
  exact mem_collapseUS (mem_strip2 h)

theorem normList_word (l : List Char) : ∀ c ∈ normList l, isWordChar c = true :=
  fun _ hc => mem_substNonWord_word (mem_normList hc)

theorem normList_chain (l : List Char) : NoDoubleUS (normList l) := by
  unfold normList stripUS
  exact noDouble_strip2 (chain'_collapseUS _)

theorem normList_lower (l : List Char) : ∀ c ∈ normList l, Char.toLower c = c := by
  intro c hc
  rcases mem_substNonWord (mem_normList hc) with hcm | rfl
  · rcases List.mem_map.mp hcm with ⟨d, _, rfl⟩
    exact toLower_idem d
  · exact toLower_underscore

theorem stripUS_normList (l : List Char) : stripUS (normList l) = normList l := by
  unfold normList stripUS
  exact strip2_idem _ _

theorem normList_idem (l : List Char) : normList (normList l) = normList l := by
  conv_lhs => rw [normList]
  rw [strip2_eq_self_of_forall (fun c hc => not_whitespace_of_word (normList_word l c hc)),
      map_eq_self_of_forall (normList_lower l),
      substNonWord_eq_self (normList_word l),
      collapseUS_eq_self (normList_chain l)]
  exact stripUS_normList l

/-- Claim C7: Header normalization is idempotent: applying `norm_col` to the
result of `norm_col` returns the same token as applying `norm_col` once. -/
theorem c7_norm_col_idempotent (s : String) : norm_col (norm_col s) = norm_col s := by
  unfold norm_col
  exact congrArg String.mk (normList_idem s.data)

/-! ### Synonym and factor tables -/

/-- Models `SOURCE_TO_TARGET` of clean_lca_xlsx_to_csv.py. -/
def SOURCE_TO_TARGET : List (String × String) :=
  [("case_number", "case_number"), ("case_no", "case_number"),
   ("case_status", "case_status"), ("status", "case_status"),
   ("received_date", "received_date"), ("case_received_date", "received_date"),
   ("decision_date", "decision_date"), ("case_decision_date", "decision_date"),
   ("original_cert_date", "decision_date"),
   ("employer_name", "employer_name"), ("employer", "employer_name"),
   ("employer_company_name", "employer_name"),
   ("job_title", "job_title"), ("jobtitle", "job_title"),
   ("soc_code", "soc_code"), ("soc", "soc_code"),
   ("soc_title", "soc_title"),
   ("worksite_city", "worksite_city"), ("employer_city", "worksite_city"),
   ("worksite_state", "worksite_state"), ("employer_state", "worksite_state"),
   ("wage_rate_of_pay_from", "wage_rate_from"), ("wage_rate_from", "wage_rate_from"),
   ("wage_rate_of_pay_to", "wage_rate_to"), ("wage_rate_to", "wage_rate_to"),
   ("wage_unit_of_pay", "wage_unit"), ("wage_unit", "wage_unit")]

/-- Models `SOURCE_TO_TARGET` of backfill_clean_all.py (a slightly smaller synonym
table than the single-file script's). -/
def SOURCE_TO_TARGET_B : List (String × String) :=
  [("case_number", "case_number"), ("case_no", "case_number"),
   ("case_status", "case_status"), ("status", "case_status"),
   ("received_date", "received_date"), ("case_received_date", "received_date"),
   ("decision_date", "decision_date"), ("case_decision_date", "decision_date"),
   ("original_cert_date", "decision_date"),
   ("employer_name", "employer_name"), ("employer", "employer_name"),
   ("job_title", "job_title"), ("jobtitle", "job_title"),
   ("soc_code", "soc_code"), ("soc", "soc_code"),
   ("soc_title", "soc_title"),
   ("worksite_city", "worksite_city"), ("worksite_state", "worksite_state"),
   ("wage_rate_of_pay_from", "wage_rate_from"), ("wage_rate_from", "wage_rate_from"),
   ("wage_rate_of_pay_to", "wage_rate_to"), ("wage_rate_to", "wage_rate_to"),
   ("wage_unit_of_pay", "wage_unit"), ("wage_unit", "wage_unit")]

/-- Models `set(SOURCE_TO_TARGET.keys())`. -/
def sourceKeys : List String := SOURCE_TO_TARGET.map Prod.fst

/-- Models `set(SOURCE_TO_TARGET.keys())` for the batch script. -/
def sourceKeysB : List String := SOURCE_TO_TARGET_B.map Prod.fst

/-- Models `WAGE_FACTORS` as defined identically in both scripts. -/
def WAGE_FACTORS : List (String × ℚ) :=
  [("year", 1), ("yr", 1), ("annual", 1),
   ("hour", 2080), ("hr", 2080),
   ("week", 52), ("wk", 52),
   ("bi_weekly", 26), ("biweekly", 26),
   ("semi_monthly", 24), ("semimonthly", 24),
   ("month", 12), ("mo", 12),
   ("day", 260), ("daily", 260)]

/-- Models `WAGE_FACTORS.get(key, np.nan)`: a missing result models the NaN default. -/
def wageFactor (t : String) : Option ℚ :=
  (WAGE_FACTORS.find? (fun p => p.1 == t)).map Prod.snd

/-! ### Per-cell field normalizers -/

/-- Models `clean_text_series` applied to one cell: cast to string, strip, and
collapse the empty string and the literal tokens nan/NaN/NONE/None to
missing. -/
def cleanTextCell (v : Option String) : Option String :=
  v.bind fun s =>
    let t := pyStrip s
    if t = "" ∨ t = "nan" ∨ t = "NaN" ∨ t = "NONE" ∨ t = "None" then none else some t

/-- Python `str.upper` (ASCII letters, as produced by `Char.toUpper`). -/
def pyUpper (s : String) : String := ⟨s.data.map Char.toUpper⟩

/-- The worksite_state step of both pipelines: after text cleanup, apply
`.str.upper().str.strip()` and re-collapse the empty string to missing. -/
def stateCell (v : Option String) : Option String :=
  (cleanTextCell v).bind fun s =>
    let t := pyStrip (pyUpper s)
    if t = "" then none else some t

/-- Numeric value of a digit string. -/
def digitsVal (cs : List Char) : Nat :=
  cs.foldl (fun a c => a * 10 + (c.toNat - 48)) 0

/-- Modelled library behavior: `pd.to_numeric(..., errors="coerce")` on a
trimmed value. Accepts an optional sign, an integer part and an optional
fractional part; anything else coerces to missing. (Exponent spellings,
which do not occur in wage columns, are not modelled.) -/
def parseDecimal (s : String) : Option ℚ :=
  let sb : ℚ × List Char :=
    match s.data with
    | '-' :: rest => (-1, rest)
    | '+' :: rest => (1, rest)
    | l => (1, l)
  let intPart := sb.2.takeWhile isDigitCh
  let rest := sb.2.drop intPart.length
  match rest with
  | [] => if intPart = [] then none else some (sb.1 * digitsVal intPart)
  | '.' :: fracs =>
    if fracs.all isDigitCh ∧ ¬(intPart = [] ∧ fracs = []) then
      some (sb.1 * ((digitsVal intPart : ℚ) + (digitsVal fracs : ℚ) / (10 : ℚ) ^ fracs.length))
    else none
  | _ => none

/-- Models `coerce_numeric_series` applied to one cell: remove dollar signs and
commas anywhere in the value, strip, treat empty as missing, then coerce to
a number. -/
def coerceNumericCell (v : Option String) : Option ℚ :=
  v.bind fun s =>
    let t := pyStrip ⟨s.data.filter (fun c => ¬(c = '$' ∨ c = ','))⟩
    if t = "" then none else parseDecimal t

/-- The variant spellings recognized by `normalize_wage_unit`'s explicit
mapping clauses. -/
def recognizedVariants : List String :=
  ["bi_weekly", "biweekly", "semi_monthly", "semi_month", "hour", "hr", "per_hour",
   "week", "wk", "per_week", "month", "mo", "per_month", "year", "yr", "per_year",
   "annual", "day", "daily", "per_day"]

/-- Models `normalize_wage_unit` as defined identically in both scripts. A missing
cell is returned missing (in the scripts a missing unit cell flows through
`str(pd.NA)` into the token "na", which the factor lookup also fails to
find, so the embedding collapses the two representations). The token body
is the same strip/lower/underscore pipeline as `norm_col`. -/
def normalize_wage_unit (u : Option String) : Option String :=
  u.bind fun v =>
    let s := norm_col v
    if s = "bi_weekly" ∨ s = "biweekly" then some "bi_weekly"
    else if s = "semi_monthly" ∨ s = "semi_month" then some "semi_monthly"
    else if s = "hour" ∨ s = "hr" ∨ s = "per_hour" then some "hour"
    else if s = "week" ∨ s = "wk" ∨ s = "per_week" then some "week"
    else if s = "month" ∨ s = "mo" ∨ s = "per_month" then some "month"
    else if s = "year" ∨ s = "yr" ∨ s = "per_year" ∨ s = "annual" then some "year"
    else if s = "day" ∨ s = "daily" ∨ s = "per_day" then some "day"
    else if s = "" then none else some s

/-! ### Wage annualization -/

/-- Strategy "avg" base (clean_lca_xlsx_to_csv.py): start from wage_from
(missing where wage_from is missing), then overwrite exactly the rows where
BOTH bounds are present with their average. A row with only wage_to present
keeps a missing base. -/
def avgBase (wf wt : Option ℚ) : Option ℚ :=
  let base := if wf.isSome then wf else none
  if wf.isSome && wt.isSome then some ((wf.getD 0 + wt.getD 0) / 2) else base

/-- Strategy "max" base: row-wise max of the two bounds, skipping missing. -/
def maxBase (wf wt : Option ℚ) : Option ℚ :=
  match wf, wt with
  | some f, some t => some (max f t)
  | some f, none => some f
  | none, some t => some t
  | none, none => none

/-- Default strategy base: `wage_from.where(wage_from.notna(), wage_to)`. -/
def fromBase (wf wt : Option ℚ) : Option ℚ :=
  if wf.isSome then wf else wt

/-- Base value × unit factor, before the guard-rail. A missing base or a
unit with no factor gives a missing (NaN) figure. -/
def rawAnnual (strategy : String) (wf wt : Option ℚ) (u : Option String) : Option ℚ :=
  let base :=
    if strategy = "avg" then avgBase wf wt
    else if strategy = "max" then maxBase wf wt
    else fromBase wf wt
  let factor := (normalize_wage_unit u).bind wageFactor
  match base, factor with
  | some b, some f => some (b * f)
  | _, _ => none

/-- The guard-rail of `compute_wage_annual`: annual figures outside
[1000, 5000000] are nulled, never clamped; missing stays missing. -/
def wageGuard (a : Option ℚ) : Option ℚ :=
  match a with
  | none => none
  | some x => if 1000 ≤ x ∧ x ≤ 5000000 then some x else none

/-- Models `compute_wage_annual` of clean_lca_xlsx_to_csv.py (the rounding to two
decimals is applied by its caller `load_and_clean_dataframe`). -/
def compute_wage_annual (strategy : String) (wf wt : Option ℚ) (u : Option String) :
    Option ℚ :=
  wageGuard (rawAnnual strategy wf wt u)

/-- Rounding to 2 decimal places on a rational (the scripts' `.round(2)`;
the guard-rail bounds are multiples of 0.01, so the half-even vs half-up
tie rule is irrelevant to every property proved below). -/
def round2 (q : ℚ) : ℚ := (round (q * 100) : ℤ) / 100

/-- Models `compute_wage_annual` of backfill_clean_all.py: fixed "from" strategy,
with the rounding applied inside the function. -/
def computeWageAnnualB (wf wt : Option ℚ) (u : Option String) : Option ℚ :=
  (wageGuard (rawAnnual "from" wf wt u)).map round2

/-! ### Date parsing -/

/-- A calendar date. -/
structure Date where
  year : Nat
  month : Nat
  day : Nat
deriving DecidableEq, Repr

/-- Gregorian leap year. -/
def isLeap (y : Nat) : Bool :=
  (y % 4 == 0 && y % 100 != 0) || y % 400 == 0

/-- Days in a month. -/
def daysInMonth (y m : Nat) : Nat :=
  if m = 2 then (if isLeap y then 29 else 28)
  else if m = 4 ∨ m = 6 ∨ m = 9 ∨ m = 11 then 30 else 31

/-- Day count of a civil date, measured from 0000-03-01 (the standard
era-based civil-from-days correspondence). -/
def daysFromCivil (y m d : Nat) : Nat :=
  let yAdj := if m ≤ 2 then y - 1 else y
  let era := yAdj / 400
  let yoe := yAdj % 400
  let mp := (m + 9) % 12
  let doy := (153 * mp + 2) / 5 + d - 1
  let doe := yoe * 365 + yoe / 4 - yoe / 100 + doy
  era * 146097 + doe

/-- Inverse of `daysFromCivil`: the civil date of a day count from
0000-03-01. -/
def civilFromDays (z : Nat) : Date :=
  let era := z / 146097
  let doe := z % 146097
  let yoe := (doe - doe / 1460 + doe / 36524 - doe / 146096) / 365
  let y := yoe + era * 400
  let doy := doe - (365 * yoe + yoe / 4 - yoe / 100)
  let mp := (5 * doy + 2) / 153
  let d := doy - (153 * mp + 2) / 5 + 1
  let m := if mp < 10 then mp + 3 else mp - 9
  ⟨if m ≤ 2 then y + 1 else y, m, d⟩

/-- The spreadsheet serial-date epoch used by both scripts:
`origin="1899-12-30"` (day zero of the serial scale). -/
def excelEpochDays : Nat := daysFromCivil 1899 12 30

/-- Calendar date of a spreadsheet serial-day number
(`pd.to_datetime(n, unit="D", origin="1899-12-30")`). -/
def serialToDate (n : Nat) : Date :=
  civilFromDays (excelEpochDays + n)

/-- Modelled library behavior: `pd.to_datetime(s, errors="coerce")` on one
already-stripped string. The scripts hand this call arbitrary text; the
embedding models the two shapes that matter for the files' date columns and
for the serial-number fallback: ISO `YYYY-MM-DD` (also with 1-digit month or
day) and a bare 4-digit year (which pandas reads as January 1 of that year —
relevant because a 4-digit numeral therefore never reaches the serial
branch). Everything else fails (NaT). Pandas' timestamp range limits parsing
to years 1678-2261. -/
def parseCalendar (t : String) : Option Date :=
  match t.data.splitOn '-' with
  | [ys, ms, ds] =>
    if ys.length = 4 ∧ ys.all isDigitCh ∧
       1 ≤ ms.length ∧ ms.length ≤ 2 ∧ ms.all isDigitCh ∧
       1 ≤ ds.length ∧ ds.length ≤ 2 ∧ ds.all isDigitCh then
      let y := digitsVal ys
      let m := digitsVal ms
      let d := digitsVal ds
      if 1678 ≤ y ∧ y ≤ 2261 ∧ 1 ≤ m ∧ m ≤ 12 ∧ 1 ≤ d ∧ d ≤ daysInMonth y m then
        some ⟨y, m, d⟩
      else none
    else none
  | [ys] =>
    if ys.length = 4 ∧ ys.all isDigitCh then
      let y := digitsVal ys
      if 1678 ≤ y ∧ y ≤ 2261 then some ⟨y, 1, 1⟩ else none
    else none
  | _ => none

/-- Models `re.fullmatch(r"\d{4,6}", t)`: a numeral of 4 to 6 digits. -/
def isSerialNumeral (t : String) : Bool :=
  4 ≤ t.data.length && t.data.length ≤ 6 && t.data.all isDigitCh

/-- Models `parse_mixed_date_series` applied to one cell, as defined identically in
both scripts: strip; collapse ""/"nan"/"NaN" to missing; try calendar
parsing; where that failed and the value is a 4-6 digit numeral in
[18000, 60000], reinterpret it as a day offset from 1899-12-30; otherwise
missing. -/
def parseMixedDateCell (v : Option String) : Option Date :=
  match v with
  | none => none
  | some raw =>
    let t := pyStrip raw
    if t = "" ∨ t = "nan" ∨ t = "NaN" then none
    else
      match parseCalendar t with
      | some d => some d
      | none =>
        if isSerialNumeral t ∧ 18000 ≤ digitsVal t.data ∧ digitsVal t.data ≤ 60000 then
          some (serialToDate (digitsVal t.data))
        else none

/-! ### Rows and the two cleaning pipelines -/

/-- One input row after renaming/coalescing onto the canonical schema: every
canonical source field as it arrives (the scripts read with dtype="string",
so each cell is a possibly-missing string). -/
structure RawRow where
  case_number : Option String
  case_status : Option String
  received_date : Option String
  decision_date : Option String
  employer_name : Option String
  job_title : Option String
  soc_code : Option String
  soc_title : Option String
  worksite_city : Option String
  worksite_state : Option String
  wage_rate_from : Option String
  wage_rate_to : Option String
  wage_unit : Option String
deriving DecidableEq, Repr

/-- One cleaned output record (the canonical field set, fixed and total). -/
structure CleanRow where
  case_number : Option String
  case_status : Option String
  received_date : Option Date
  decision_date : Option Date
  employer_name : Option String
  job_title : Option String
  soc_code : Option String
  soc_title : Option String
  worksite_city : Option String
  worksite_state : Option String
  wage_rate_from : Option ℚ
  wage_rate_to : Option ℚ
  wage_unit : Option String
  wage_annual : Option ℚ
  year : Option Nat
deriving DecidableEq, Repr

/-- The per-row body of `load_and_clean_dataframe` (clean_lca_xlsx_to_csv.py):
one text-cleanup pass, state normalization, numeric and date coercions, the
derived year and annual wage (rounded to 2 decimals), then the script's
second text-cleanup pass over the string columns. -/
def processRow (strategy : String) (r : RawRow) : CleanRow :=
  let cn := cleanTextCell r.case_number
  let wu := cleanTextCell r.wage_unit
  let dd := parseMixedDateCell r.decision_date
  { case_number := cleanTextCell cn
    case_status := cleanTextCell (cleanTextCell r.case_status)
    received_date := parseMixedDateCell r.received_date
    decision_date := dd
    employer_name := cleanTextCell (cleanTextCell r.employer_name)
    job_title := cleanTextCell (cleanTextCell r.job_title)
    soc_code := cleanTextCell (cleanTextCell r.soc_code)
    soc_title := cleanTextCell (cleanTextCell r.soc_title)
    worksite_city := cleanTextCell (cleanTextCell r.worksite_city)
    worksite_state := cleanTextCell (stateCell r.worksite_state)
    wage_rate_from := coerceNumericCell r.wage_rate_from
    wage_rate_to := coerceNumericCell r.wage_rate_to
    wage_unit := cleanTextCell wu
    wage_annual := (compute_wage_annual strategy (coerceNumericCell r.wage_rate_from)
      (coerceNumericCell r.wage_rate_to) wu).map round2
    year := dd.map Date.year }

/-- Models `load_and_clean_dataframe`: clean every row, then drop the rows whose
case_number is missing. -/
def load_and_clean_dataframe (strategy : String) (rows : List RawRow) : List CleanRow :=
  (rows.map (processRow strategy)).filter (fun r => r.case_number.isSome)

/-- The per-row body of `load_and_clean` (backfill_clean_all.py): a single
text-cleanup pass, fixed "from" wage strategy, rounding inside
`compute_wage_annual`. -/
def processRowB (r : RawRow) : CleanRow :=
  let wu := cleanTextCell r.wage_unit
  let dd := parseMixedDateCell r.decision_date
  { case_number := cleanTextCell r.case_number
    case_status := cleanTextCell r.case_status
    received_date := parseMixedDateCell r.received_date
    decision_date := dd
    employer_name := cleanTextCell r.employer_name
    job_title := cleanTextCell r.job_title
    soc_code := cleanTextCell r.soc_code
    soc_title := cleanTextCell r.soc_title
    worksite_city := cleanTextCell r.worksite_city
    worksite_state := stateCell r.worksite_state
    wage_rate_from := coerceNumericCell r.wage_rate_from
    wage_rate_to := coerceNumericCell r.wage_rate_to
    wage_unit := wu
    wage_annual := computeWageAnnualB (coerceNumericCell r.wage_rate_from)
      (coerceNumericCell r.wage_rate_to) wu
    year := dd.map Date.year }

/-- Models `load_and_clean` of backfill_clean_all.py. -/
def load_and_clean (rows : List RawRow) : List CleanRow :=
  (rows.map processRowB).filter (fun r => r.case_number.isSome)

/-! ### Duplicate-column coalescing -/

/-- Models `DataFrame.bfill(axis=1)` restricted to one row of the duplicate-column
group: every cell takes its own value if present, else the next present
value to its right. -/
def bfillRow {α : Type} : List (Option α) → List (Option α)
  | [] => []
  | v :: rest =>
    match bfillRow rest with
    | [] => [v]
    | w :: ws => (match v with | some x => some x | none => w) :: w :: ws

/-- The merged cell `cols.bfill(axis=1).iloc[:, 0]` for one row. -/
def mergedCell {α : Type} (group : List (Option α)) : Option α :=
  (bfillRow group).headD none

/-- Models `pd.unique` over column names: first-seen order with duplicates removed. -/
def firstSeen : List String → List String
  | [] => []
  | n :: rest => n :: firstSeen (rest.filter (fun m => m ≠ n))
termination_by l => l.length
decreasing_by
  have h := List.length_filter_le (fun m => decide (m ≠ n)) rest
  simp only [List.length_cons]; omega

/-- Models `coalesce_duplicate_columns` as defined identically in both scripts,
restricted to one row (a list of column-name/cell pairs in column order):
if all names are unique the row is returned unchanged, otherwise each
first-seen name gets the backfilled-first cell of its duplicate group. -/
def coalesce_duplicate_columns {α : Type} (row : List (String × Option α)) :
    List (String × Option α) :=
  if (row.map Prod.fst).Nodup then row
  else (firstSeen (row.map Prod.fst)).map
    (fun n => (n, mergedCell ((row.filter (fun p => p.1 = n)).map Prod.snd)))

/-! ### Header resolver -/

/-- Models `infer_usecols_from_xlsx` of clean_lca_xlsx_to_csv.py. The argument is
`none` when reading the header row raised (the `except` branch), otherwise
the list of raw header strings. Returns the usecols selection (`none` means
"read all columns") together with the normalized-header map. -/
def infer_usecols_from_xlsx (headers : Option (List String)) :
    Option (List String) × List (String × String) :=
  match headers with
  | none => (none, [])
  | some cols =>
    let normMap := cols.map (fun c => (c, norm_col c))
    let keep := cols.filter (fun c => sourceKeys.contains (norm_col c))
    if keep.isEmpty then (none, normMap) else (some keep, normMap)

/-- Models `infer_usecols_from_xlsx` of backfill_clean_all.py (`keep or None`). -/
def inferUsecolsB (headers : Option (List String)) : Option (List String) :=
  match headers with
  | none => none
  | some cols =>
    let keep := cols.filter (fun c => sourceKeysB.contains (norm_col c))
    if keep.isEmpty then none else some keep

/-! ### Batch-mode file ordering -/

/-- One attempt of the regex `FY(\d{4})_Q([1-4])` (case-insensitive) at the
head of the character list: `FY`, exactly four digits, an underscore, `Q`,
one digit between 1 and 4. Every piece of the pattern has a fixed width, so
this anchored matcher is exactly the regex engine's behavior at one start
position. -/
def matchFYQAt : List Char → Option (Nat × Nat)
  | f :: y :: d1 :: d2 :: d3 :: d4 :: u :: q :: n :: _ =>
    if (f = 'F' ∨ f = 'f') ∧ (y = 'Y' ∨ y = 'y') ∧
       isDigitCh d1 ∧ isDigitCh d2 ∧ isDigitCh d3 ∧ isDigitCh d4 ∧
       u = '_' ∧ (q = 'Q' ∨ q = 'q') ∧ 49 ≤ n.toNat ∧ n.toNat ≤ 52 then
      some (digitsVal [d1, d2, d3, d4], n.toNat - 48)
    else none
  | _ => none

/-- Models `re.search`: leftmost position at which the pattern matches. -/
def searchFYQ : List Char → Option (Nat × Nat)
  | [] => none
  | c :: rest =>
    match matchFYQAt (c :: rest) with
    | some r => some r
    | none => searchFYQ rest

/-- Models `parse_fy_q` of backfill_clean_all.py: fiscal year and quarter from the
filename, or `(None, None)` when the pattern does not occur. -/
def parse_fy_q (filename : String) : Option Nat × Option Nat :=
  match searchFYQ filename.data with
  | some (fy, q) => (some fy, some q)
  | none => (none, none)

/-- Code-point lexicographic comparison of character lists: Python's string
`<=` on the filenames. -/
def charListLE : List Char → List Char → Bool
  | [], _ => true
  | _ :: _, [] => false
  | a :: as, b :: bs =>
    if a.toNat = b.toNat then charListLE as bs
    else decide (a.toNat < b.toNat)

/-- Models `sort_key` of backfill_clean_all.py: `(fy or 9999, q or 9, filename)`. -/
def sort_key (f : String) : Nat × Nat × String :=
  ((parse_fy_q f).1.getD 9999, (parse_fy_q f).2.getD 9, f)

/-- The ascending lexicographic order on `sort_key` values that
`files.sort(key=sort_key)` sorts by. -/
def keyLE (a b : String) : Bool :=
  if (sort_key a).1 ≠ (sort_key b).1 then decide ((sort_key a).1 < (sort_key b).1)
  else if (sort_key a).2.1 ≠ (sort_key b).2.1 then decide ((sort_key a).2.1 < (sort_key b).2.1)
  else charListLE a.data b.data

/-- Models `files.sort(key=sort_key)`: stable ascending sort by the key. -/
def sortFiles (files : List String) : List String :=
  files.mergeSort keyLE

/-! ### Basic properties of the cell normalizers -/

theorem pyStrip_idem (s : String) : pyStrip (pyStrip s) = pyStrip s :=
  congrArg String.mk (strip2_idem Char.isWhitespace s.data)

theorem cleanTextCell_some (s : String) :
    cleanTextCell (some s) =
      if pyStrip s = "" ∨ pyStrip s = "nan" ∨ pyStrip s = "NaN" ∨
         pyStrip s = "NONE" ∨ pyStrip s = "None" then none else some (pyStrip s) := rfl

theorem cleanTextCell_idem (v : Option String) :
    cleanTextCell (cleanTextCell v) = cleanTextCell v := by
  cases v with
  | none => rfl
  | some s =>
    rw [cleanTextCell_some s]
    by_cases h : pyStrip s = "" ∨ pyStrip s = "nan" ∨ pyStrip s = "NaN" ∨
        pyStrip s = "NONE" ∨ pyStrip s = "None"
    · rw [if_pos h]
      rfl
    · rw [if_neg h, cleanTextCell_some, pyStrip_idem, if_neg h]

/-! ### C1: the "avg" wage-base strategy -/

/-- Claim C1 counterexample: The claim says a row with only `wage_rate_to`
present uses `wage_rate_to` as base under the "avg" strategy. In the code,
such a row keeps a missing base (the average overwrite only touches rows
where both bounds are present, and the starting vector is `wage_rate_from`
with missing where it is missing): with wage_rate_to = 2000 and unit "Year"
the base and the annual figure come out missing, not 2000. -/
theorem c1_avg_counterexample :
    avgBase none (some 2000) = none ∧
    avgBase none (some 2000) ≠ some 2000 ∧
    compute_wage_annual "avg" none (some 2000) (some "Year") = none := by
  refine ⟨rfl, by decide, by rfl⟩

/-- Claim C1 amended: Under the "avg" strategy, the base value is the average
of from/to when both are present, `wage_rate_from` when only it is present,
and missing whenever `wage_rate_from` is missing — even if `wage_rate_to`
is present. -/
theorem c1_avg_base_amended (wf wt : Option ℚ) :
    avgBase wf wt =
      match wf, wt with
      | some f, some t => some ((f + t) / 2)
      | some f, none => some f
      | none, _ => none := by
  cases wf <;> cases wt <;> simp [avgBase]

/-! ### C2: the primary-key record filter -/

/-- Claim C2: In both pipelines a record appears in the output iff its
case_number after text normalization is non-missing: the output is exactly
the cleaned image of the input rows whose normalized case_number is present
(rows with a missing case_number are dropped, nothing is dropped otherwise,
and the filter is a total function — no error path). -/
theorem c2_case_number_filter (strategy : String) (rows : List RawRow) :
    load_and_clean_dataframe strategy rows =
      (rows.filter (fun r => (cleanTextCell r.case_number).isSome)).map (processRow strategy) ∧
    load_and_clean rows =
      (rows.filter (fun r => (cleanTextCell r.case_number).isSome)).map processRowB := by
  constructor
  · rw [load_and_clean_dataframe, List.filter_map]
    congr 1
    apply List.filter_congr
    intro r _
    show (cleanTextCell (cleanTextCell r.case_number)).isSome
        = (cleanTextCell r.case_number).isSome
    rw [cleanTextCell_idem]
  · rw [load_and_clean, List.filter_map]
    congr 1

/-! ### C3: the wage_annual guard-rail -/

theorem round2_bounds {x : ℚ} (h1 : 1000 ≤ x) (h2 : x ≤ 5000000) :
    1000 ≤ round2 x ∧ round2 x ≤ 5000000 := by
  have hl : (100000 : ℤ) ≤ round (x * 100) := by
    rw [round_eq, Int.le_floor]
    push_cast
    linarith
  have hu : round (x * 100) ≤ (500000000 : ℤ) := by
    rw [round_eq]
    have hlt : x * 100 + 1 / 2 < ((500000001 : ℤ) : ℚ) := by push_cast; linarith
    have hfl := Int.floor_lt.mpr hlt
    omega
  constructor
  · rw [round2, le_div_iff₀ (by norm_num)]
    calc (1000 : ℚ) * 100 = ((100000 : ℤ) : ℚ) := by norm_num
    _ ≤ ((round (x * 100) : ℤ) : ℚ) := by exact_mod_cast hl
  · rw [round2, div_le_iff₀ (by norm_num)]
    calc ((round (x * 100) : ℤ) : ℚ) ≤ ((500000000 : ℤ) : ℚ) := by exact_mod_cast hu
    _ = 5000000 * 100 := by norm_num

theorem wageGuard_some {a : Option ℚ} {x : ℚ} (h : wageGuard a = some x) :
    1000 ≤ x ∧ x ≤ 5000000 := by
  cases a with
  | none => simp [wageGuard] at h
  | some y =>
    by_cases hy : 1000 ≤ y ∧ y ≤ 5000000
    · rw [wageGuard, if_pos hy] at h
      cases h
      exact hy
    · rw [wageGuard, if_neg hy] at h
      cases h

/-- Claim C3: In both pipelines, every emitted record's wage_annual is either
missing or lies in [1000, 5000000]; and a computed annual figure outside
that range is set to missing, never clamped to a bound. -/
theorem c3_wage_annual_range :
    (∀ (strategy : String) (rows : List RawRow) (r : CleanRow),
      r ∈ load_and_clean_dataframe strategy rows →
      ∀ x, r.wage_annual = some x → 1000 ≤ x ∧ x ≤ 5000000) ∧
    (∀ (rows : List RawRow) (r : CleanRow),
      r ∈ load_and_clean rows →
      ∀ x, r.wage_annual = some x → 1000 ≤ x ∧ x ≤ 5000000) ∧
    (∀ (strategy : String) (wf wt : Option ℚ) (u : Option String) (a : ℚ),
      rawAnnual strategy wf wt u = some a → (a < 1000 ∨ 5000000 < a) →
      compute_wage_annual strategy wf wt u = none) := by
  refine ⟨?_, ?_, ?_⟩
  · intro strategy rows r hr x hx
    rw [load_and_clean_dataframe] at hr
    obtain ⟨hmem, -⟩ := List.mem_filter.mp hr
    obtain ⟨raw, -, rfl⟩ := List.mem_map.mp hmem
    have hx2 : ((compute_wage_annual strategy (coerceNumericCell raw.wage_rate_from)
        (coerceNumericCell raw.wage_rate_to) (cleanTextCell raw.wage_unit)).map round2)
        = some x := hx
    obtain ⟨y, hy, hxy⟩ := Option.map_eq_some'.mp hx2
    obtain ⟨hy1, hy2⟩ := wageGuard_some hy
    rw [← hxy]
    exact round2_bounds hy1 hy2
  · intro rows r hr x hx
    rw [load_and_clean] at hr
    obtain ⟨hmem, -⟩ := List.mem_filter.mp hr
    obtain ⟨raw, -, rfl⟩ := List.mem_map.mp hmem
    have hx2 : ((wageGuard (rawAnnual "from" (coerceNumericCell raw.wage_rate_from)
        (coerceNumericCell raw.wage_rate_to) (cleanTextCell raw.wage_unit))).map round2)
        = some x := hx
    obtain ⟨y, hy, hxy⟩ := Option.map_eq_some'.mp hx2
    obtain ⟨hy1, hy2⟩ := wageGuard_some hy
    rw [← hxy]
    exact round2_bounds hy1 hy2
  · intro strategy wf wt u a ha hout
    rw [compute_wage_annual, ha, wageGuard,
      if_neg (by intro hc; rcases hout with h | h <;> linarith [hc.1, hc.2])]

/-- The spec's end-to-end sample row: case A-1, hourly rate 50, decided
2022-01-10. -/
def sampleRaw : RawRow :=
  ⟨some "A-1", none, none, some "2022-01-10", none, none, none, none, none, none,
    some "50", none, some "Hour"⟩

theorem round2_104000 : round2 104000 = 104000 := by
  rw [round2]
  have h1 : (104000 : ℚ) * 100 = ((10400000 : ℤ) : ℚ) := by norm_num
  rw [h1, round_intCast]
  norm_num

theorem rawAnnual_from_hour (x : ℚ) :
    rawAnnual "from" (some x) none (some "Hour") = some (x * 2080) := by
  have hf : (normalize_wage_unit (some "Hour")).bind wageFactor = some 2080 := by
    have h1 : normalize_wage_unit (some "Hour") = some "hour" := by decide
    rw [h1]
    decide
  show (match fromBase (some x) none, (normalize_wage_unit (some "Hour")).bind wageFactor with
    | some b, some f => some (b * f)
    | _, _ => none) = some (x * 2080)
  rw [hf]
  rfl

theorem parseDecimal_50 : parseDecimal "50" = some 50 := by
  show some ((1 : ℚ) * ((digitsVal (List.takeWhile isDigitCh "50".data) : Nat) : ℚ))
      = some 50
  have h : digitsVal (List.takeWhile isDigitCh "50".data) = 50 := by decide
  rw [h]
  norm_num

theorem coerceNumericCell_50 : coerceNumericCell (some "50") = some 50 := by
  show (if pyStrip ⟨("50" : String).data.filter (fun c => ¬(c = '$' ∨ c = ','))⟩ = ""
    then none
    else parseDecimal (pyStrip ⟨("50" : String).data.filter (fun c => ¬(c = '$' ∨ c = ','))⟩))
      = some 50
  have h : pyStrip ⟨("50" : String).data.filter (fun c => ¬(c = '$' ∨ c = ','))⟩ = "50" := by
    decide
  rw [h, if_neg (by decide)]
  exact parseDecimal_50

theorem compute_sample : compute_wage_annual "from" (some 50) none (some "Hour")
    = some 104000 := by
  rw [compute_wage_annual, rawAnnual_from_hour]
  have h : (50 * 2080 : ℚ) = 104000 := by norm_num
  rw [h, wageGuard, if_pos (by norm_num)]

theorem processRow_sample_annual :
    (processRow "from" sampleRaw).wage_annual = some 104000 := by
  show (compute_wage_annual "from" (coerceNumericCell (some "50")) (coerceNumericCell none)
    (cleanTextCell (some "Hour"))).map round2 = some 104000
  rw [coerceNumericCell_50]
  have hu : cleanTextCell (some "Hour") = some "Hour" := by decide
  rw [hu]
  show (compute_wage_annual "from" (some 50) none (some "Hour")).map round2 = some 104000
  rw [compute_sample]
  show some (round2 104000) = some 104000
  rw [round2_104000]

/-- Witness for C3: a record cleaned from a concrete row (hourly rate 50,
annualized to 104000) is in range, and an out-of-range figure (hourly rate
5000, annualized to 10400000) is nulled rather than clamped. -/
theorem c3_wage_annual_range_witness :
    ((1000 : ℚ) ≤ 104000 ∧ (104000 : ℚ) ≤ 5000000) ∧
    compute_wage_annual "from" (some 5000) none (some "Hour") = none := by
  constructor
  · exact c3_wage_annual_range.1 "from" [sampleRaw] (processRow "from" sampleRaw)
      (List.mem_filter.mpr ⟨List.mem_map.mpr ⟨sampleRaw, List.mem_singleton.mpr rfl, rfl⟩,
        by decide⟩)
      104000 processRow_sample_annual
  · refine c3_wage_annual_range.2.2 "from" (some 5000) none (some "Hour") (5000 * 2080)
      (rawAnnual_from_hour 5000) ?_
    right
    norm_num

/-! ### C4: dual-strategy date parsing -/

theorem isSerialNumeral_ne_sentinels {t : String} (h : isSerialNumeral t = true) :
    ¬(t = "" ∨ t = "nan" ∨ t = "NaN") := by
  rintro (rfl | rfl | rfl) <;> exact absurd h (by decide)

/-- Claim C4: Date-field parsing: (i) whenever calendar parsing fails on the
stripped value and the value is a 4-6 digit numeral whose numeric value lies
in [18000, 60000], the cell parses to the day-offset date from epoch
1899-12-30; (ii) the string "2021-03-15" and the serial numeral "44270" both
parse to calendar date 2021-03-15; (iii) a value matching neither path
parses to missing (the parser is a total function — nothing raises). -/
theorem c4_mixed_date_parsing :
    (∀ raw : String, parseCalendar (pyStrip raw) = none →
      isSerialNumeral (pyStrip raw) = true →
      18000 ≤ digitsVal (pyStrip raw).data → digitsVal (pyStrip raw).data ≤ 60000 →
      parseMixedDateCell (some raw)
        = some (serialToDate (digitsVal (pyStrip raw).data))) ∧
    parseMixedDateCell (some "2021-03-15") = some ⟨2021, 3, 15⟩ ∧
    parseMixedDateCell (some "44270") = some ⟨2021, 3, 15⟩ ∧
    (∀ raw : String, parseCalendar (pyStrip raw) = none →
      ¬(isSerialNumeral (pyStrip raw) = true ∧ 18000 ≤ digitsVal (pyStrip raw).data ∧
        digitsVal (pyStrip raw).data ≤ 60000) →
      parseMixedDateCell (some raw) = none) := by
  refine ⟨?_, by decide, by decide, ?_⟩
  · intro raw hcal hser h18 h60
    rw [parseMixedDateCell, if_neg (isSerialNumeral_ne_sentinels hser), hcal,
      if_pos ⟨hser, h18, h60⟩]
  · intro raw hcal hnot
    by_cases hs : pyStrip raw = "" ∨ pyStrip raw = "nan" ∨ pyStrip raw = "NaN"
    · rw [parseMixedDateCell, if_pos hs]
    · rw [parseMixedDateCell, if_neg hs, hcal, if_neg hnot]

/-- Witness for C4: the serial-branch statement applied to the concrete
value " 44270 " (whitespace exercising the strip). -/
theorem c4_mixed_date_parsing_witness :
    parseMixedDateCell (some " 44270 ")
      = some (serialToDate (digitsVal (pyStrip " 44270 ").data)) :=
  c4_mixed_date_parsing.1 " 44270 " (by decide) (by decide) (by decide) (by decide)

/-! ### C5: duplicate-column coalescing -/

theorem bfillRow_eq_nil {α : Type} {l : List (Option α)} (h : bfillRow l = []) : l = [] := by
  cases l with
  | nil => rfl
  | cons v rest =>
    rw [bfillRow] at h
    cases hr : bfillRow rest <;> rw [hr] at h <;> cases h

theorem mergedCell_eq_findSome {α : Type} (group : List (Option α)) :
    mergedCell group = group.findSome? id := by
  induction group with
  | nil => rfl
  | cons v rest ih =>
    rw [mergedCell, bfillRow]
    cases hr : bfillRow rest with
    | nil =>
      have hrest : rest = [] := bfillRow_eq_nil hr
      subst hrest
      cases v <;> rfl
    | cons w ws =>
      rw [mergedCell, hr, List.headD_cons] at ih
      rw [List.findSome?_cons]
      cases v with
      | some x => rfl
      | none =>
        rw [List.headD_cons]
        exact ih

theorem filter_ne_of_not_mem {n : String} {l : List String} (h : n ∉ l) :
    l.filter (fun m => m ≠ n) = l :=
  List.filter_eq_self.mpr (fun a ha => by
    simp only [ne_eq, decide_eq_true_eq]
    exact fun hc => h (hc ▸ ha))

theorem firstSeen_nodup_id {l : List String} (h : l.Nodup) : firstSeen l = l := by
  induction l with
  | nil => rw [firstSeen]
  | cons n rest ih =>
    rw [firstSeen, filter_ne_of_not_mem (List.nodup_cons.mp h).1,
      ih (List.nodup_cons.mp h).2]

theorem mem_firstSeen {a : String} : ∀ {l : List String}, a ∈ firstSeen l → a ∈ l := by
  intro l
  induction l using firstSeen.induct with
  | case1 =>
    intro h
    rw [firstSeen] at h
    exact h
  | case2 n rest ih =>
    intro h
    rw [firstSeen] at h
    rcases List.mem_cons.mp h with rfl | h2
    · exact List.mem_cons_self _ _
    · exact List.mem_cons_of_mem _ (List.mem_of_mem_filter (ih h2))

theorem coalesce_nodup_id {α : Type} :
    ∀ row : List (String × Option α), (row.map Prod.fst).Nodup →
    (firstSeen (row.map Prod.fst)).map
      (fun n => (n, ((row.filter (fun p => p.1 = n)).map Prod.snd).findSome? id)) = row := by
  intro row
  induction row with
  | nil =>
    intro h
    rw [List.map_nil, firstSeen, List.map_nil]
  | cons p rest ih =>
    intro h
    obtain ⟨n0, v0⟩ := p
    rw [List.map_cons] at h
    have h1 : n0 ∉ rest.map Prod.fst := (List.nodup_cons.mp h).1
    have h2 : (rest.map Prod.fst).Nodup := (List.nodup_cons.mp h).2
    rw [List.map_cons, firstSeen, filter_ne_of_not_mem h1, List.map_cons]
    have hfil : ((n0, v0) :: rest).filter (fun p => p.1 = n0) = [(n0, v0)] := by
      rw [List.filter_cons_of_pos (by simp)]
      have : rest.filter (fun p => p.1 = n0) = [] := by
        rw [List.filter_eq_nil_iff]
        intro q hq
        simp only [decide_eq_true_eq]
        exact fun hc => h1 (List.mem_map.mpr ⟨q, hq, hc⟩)
      rw [this]
    congr 1
    · rw [hfil]
      cases v0 <;> rfl
    · have hcong : ∀ n ∈ firstSeen (rest.map Prod.fst),
          (fun n => (n, ((((n0, v0) :: rest).filter (fun p => p.1 = n)).map
            Prod.snd).findSome? id)) n
          = (fun n => (n, ((rest.filter (fun p => p.1 = n)).map Prod.snd).findSome? id)) n := by
        intro n hn
        have hne : n ≠ n0 := fun hc => h1 (hc ▸ List.mem_map.mpr
          (by exact absurd (mem_firstSeen hn) (by simp_all)))
        simp only
        rw [List.filter_cons_of_neg (by simpa using fun hc => hne hc.symm)]
      rw [List.map_congr_left hcong, ih h2]

/-- Claim C5: When several raw columns map to the same canonical name, the
merged column takes, for each row independently, the first non-missing value
scanning the duplicate columns left to right: the bfill-then-first-column
cell equals first-non-missing (so a leftmost non-missing value is never
discarded), coalescing is a total function (never raises), and
`coalesce_duplicate_columns` maps each first-seen name to exactly that
merged value (leaving a duplicate-free row unchanged). -/
theorem c5_coalesce_first_nonmissing {α : Type} (row : List (String × Option α)) :
    (∀ group : List (Option α), mergedCell group = group.findSome? id) ∧
    coalesce_duplicate_columns row =
      (firstSeen (row.map Prod.fst)).map
        (fun n => (n, ((row.filter (fun p => p.1 = n)).map Prod.snd).findSome? id)) := by
  refine ⟨mergedCell_eq_findSome, ?_⟩
  rw [coalesce_duplicate_columns]
  by_cases h : (row.map Prod.fst).Nodup
  · rw [if_pos h, coalesce_nodup_id row h]
  · rw [if_neg h]
    apply List.map_congr_left
    intro n hn
    rw [mergedCell_eq_findSome]

/-! ### C6: unrecognized wage-unit tokens -/

theorem wageFactor_eq_none_of_unrecognized {t : String}
    (hmem : t ∉ recognizedVariants) (hsemi : t ≠ "semimonthly") :
    wageFactor t = none := by
  rw [wageFactor]
  rw [List.find?_eq_none.mpr]
  · rfl
  · intro p hp
    simp only [WAGE_FACTORS, List.mem_cons, List.not_mem_nil, or_false] at hp
    rcases hp with rfl | rfl | rfl | rfl | rfl | rfl | rfl | rfl | rfl | rfl | rfl | rfl |
      rfl | rfl | rfl <;>
      simp only [beq_iff_eq] <;> intro hc <;>
      first
        | exact hmem (hc ▸ (by decide))
        | exact hsemi hc.symm

/-- Claim C6 amended: A non-empty wage-unit token whose normalized form is not
one of the recognized variant spellings passes through unchanged (not
treated as missing); it finds no multiplier in the unit table — and hence
yields a missing derived wage, not an error — in every case except the one
token "semimonthly", which happens to be a key of WAGE_FACTORS itself. -/
theorem c6_unrecognized_unit_passthrough (s : String)
    (hmem : norm_col s ∉ recognizedVariants) (hne : norm_col s ≠ "") :
    normalize_wage_unit (some s) = some (norm_col s) ∧
    (wageFactor (norm_col s) = none ↔ norm_col s ≠ "semimonthly") := by
  have hv : ∀ v ∈ recognizedVariants, norm_col s ≠ v := fun v hvmem hc => hmem (hc ▸ hvmem)
  constructor
  · show (if norm_col s = "bi_weekly" ∨ norm_col s = "biweekly" then some "bi_weekly"
      else if norm_col s = "semi_monthly" ∨ norm_col s = "semi_month" then some "semi_monthly"
      else if norm_col s = "hour" ∨ norm_col s = "hr" ∨ norm_col s = "per_hour" then some "hour"
      else if norm_col s = "week" ∨ norm_col s = "wk" ∨ norm_col s = "per_week" then some "week"
      else if norm_col s = "month" ∨ norm_col s = "mo" ∨ norm_col s = "per_month" then
        some "month"
      else if norm_col s = "year" ∨ norm_col s = "yr" ∨ norm_col s = "per_year" ∨
        norm_col s = "annual" then some "year"
      else if norm_col s = "day" ∨ norm_col s = "daily" ∨ norm_col s = "per_day" then some "day"
      else if norm_col s = "" then none else some (norm_col s)) = some (norm_col s)
    rw [if_neg (by rintro (hc | hc) <;> exact hv _ (by decide) hc),
      if_neg (by rintro (hc | hc) <;> exact hv _ (by decide) hc),
      if_neg (by rintro (hc | hc | hc) <;> exact hv _ (by decide) hc),
      if_neg (by rintro (hc | hc | hc) <;> exact hv _ (by decide) hc),
      if_neg (by rintro (hc | hc | hc) <;> exact hv _ (by decide) hc),
      if_neg (by rintro (hc | hc | hc | hc) <;> exact hv _ (by decide) hc),
      if_neg (by rintro (hc | hc | hc) <;> exact hv _ (by decide) hc),
      if_neg hne]
  · constructor
    · intro hfn hc
      rw [hc] at hfn
      exact absurd hfn (by decide)
    · intro hsemi
      exact wageFactor_eq_none_of_unrecognized hmem hsemi

/-- Witness for C6 (amended): the token "Fortnightly" normalizes to the
unrecognized non-empty token "fortnightly", passes through unchanged, and
finds no multiplier. -/
theorem c6_unrecognized_unit_passthrough_witness :
    normalize_wage_unit (some "Fortnightly") = some "fortnightly" ∧
    (wageFactor "fortnightly" = none ↔ "fortnightly" ≠ "semimonthly") := by
  have h := c6_unrecognized_unit_passthrough "Fortnightly" (by decide) (by decide)
  have hn : norm_col "Fortnightly" = "fortnightly" := by decide
  rw [hn] at h
  exact h

theorem rawAnnual_from_semimonthly (x : ℚ) :
    rawAnnual "from" (some x) none (some "Semimonthly") = some (x * 24) := by
  have hf : (normalize_wage_unit (some "Semimonthly")).bind wageFactor = some 24 := by
    have h1 : normalize_wage_unit (some "Semimonthly") = some "semimonthly" := by decide
    rw [h1]
    decide
  show (match fromBase (some x) none,
      (normalize_wage_unit (some "Semimonthly")).bind wageFactor with
    | some b, some f => some (b * f)
    | _, _ => none) = some (x * 24)
  rw [hf]
  rfl

/-- Claim C6 counterexample: The token "Semimonthly" normalizes to the
non-empty token "semimonthly", which is NOT one of the recognized variant
spellings and passes through unchanged — yet it DOES find a multiplier in
the unit table (24), so a row with wage 3000 and unit "Semimonthly" gets the
derived annual wage 72000 instead of the missing value the claim asserts. -/
theorem c6_unrecognized_unit_counterexample :
    norm_col "Semimonthly" = "semimonthly" ∧
    "semimonthly" ∉ recognizedVariants ∧
    normalize_wage_unit (some "Semimonthly") = some "semimonthly" ∧
    wageFactor "semimonthly" = some 24 ∧
    compute_wage_annual "from" (some 3000) none (some "Semimonthly") = some 72000 := by
  refine ⟨by decide, by decide, by decide, by decide, ?_⟩
  rw [compute_wage_annual, rawAnnual_from_semimonthly]
  have h : (3000 * 24 : ℚ) = 72000 := by norm_num
  rw [h, wageGuard, if_pos (by norm_num)]

/-! ### C8: header-resolver fallback -/

/-- Claim C8: Both header resolvers signal "read all columns" (`none`) rather
than an empty column set or an abort: when header inspection itself fails
they return the fallback; when no raw header's normalized form appears in
the synonym table they return the fallback; and a non-fallback result is
never the empty column set. -/
theorem c8_usecols_fallback :
    ((infer_usecols_from_xlsx none).1 = none ∧ inferUsecolsB none = none) ∧
    (∀ cols : List String, (∀ c ∈ cols, norm_col c ∉ sourceKeys) →
      (infer_usecols_from_xlsx (some cols)).1 = none) ∧
    (∀ cols : List String, (∀ c ∈ cols, norm_col c ∉ sourceKeysB) →
      inferUsecolsB (some cols) = none) ∧
    (∀ (headers : Option (List String)) (ls : List String),
      (infer_usecols_from_xlsx headers).1 = some ls → ls ≠ []) ∧
    (∀ (headers : Option (List String)) (ls : List String),
      inferUsecolsB headers = some ls → ls ≠ []) := by
  refine ⟨⟨rfl, rfl⟩, ?_, ?_, ?_, ?_⟩
  · intro cols hnone
    have hfil : cols.filter (fun c => sourceKeys.contains (norm_col c)) = [] := by
      rw [List.filter_eq_nil_iff]
      intro c hc hcontra
      exact hnone c hc (List.elem_iff.mp hcontra)
    rw [infer_usecols_from_xlsx, hfil]
    rfl
  · intro cols hnone
    have hfil : cols.filter (fun c => sourceKeysB.contains (norm_col c)) = [] := by
      rw [List.filter_eq_nil_iff]
      intro c hc hcontra
      exact hnone c hc (List.elem_iff.mp hcontra)
    rw [inferUsecolsB, hfil]
    rfl
  · intro headers ls hsome
    cases headers with
    | none => cases hsome
    | some cols =>
      rw [infer_usecols_from_xlsx] at hsome
      by_cases hf : (cols.filter (fun c => sourceKeys.contains (norm_col c))).isEmpty
      · rw [if_pos hf] at hsome
        cases hsome
      · rw [if_neg hf] at hsome
        cases hsome
        intro hnil
        rw [hnil] at hf
        exact hf rfl
  · intro headers ls hsome
    cases headers with
    | none => cases hsome
    | some cols =>
      rw [inferUsecolsB] at hsome
      by_cases hf : (cols.filter (fun c => sourceKeysB.contains (norm_col c))).isEmpty
      · rw [if_pos hf] at hsome
        cases hsome
      · rw [if_neg hf] at hsome
        cases hsome
        intro hnil
        rw [hnil] at hf
        exact hf rfl

/-- Witness for C8: headers that normalize to no synonym-table key produce
the all-columns fallback in both scripts. -/
theorem c8_usecols_fallback_witness :
    (infer_usecols_from_xlsx (some ["Visa Class", "TOTAL WORKERS"])).1 = none ∧
    inferUsecolsB (some ["Visa Class", "TOTAL WORKERS"]) = none :=
  ⟨c8_usecols_fallback.2.1 ["Visa Class", "TOTAL WORKERS"] (by decide),
   c8_usecols_fallback.2.2.1 ["Visa Class", "TOTAL WORKERS"] (by decide)⟩

/-! ### C10: shape of parse_fy_q -/

theorem matchFYQAt_bounds {cs : List Char} {fy q : Nat}
    (h : matchFYQAt cs = some (fy, q)) : fy ≤ 9999 ∧ 1 ≤ q ∧ q ≤ 4 := by
  unfold matchFYQAt at h
  split at h
  · split at h
    · rename_i hcond
      obtain ⟨-, -, hd1, hd2, hd3, hd4, -, -, hn1, hn2⟩ := hcond
      simp only [Option.some.injEq, Prod.mk.injEq] at h
      obtain ⟨rfl, rfl⟩ := h
      simp only [isDigitCh, Bool.and_eq_true, decide_eq_true_eq] at hd1 hd2 hd3 hd4
      refine ⟨?_, by omega, by omega⟩
      simp only [digitsVal, List.foldl]
      omega
    · exact Option.noConfusion h
  · exact Option.noConfusion h

theorem searchFYQ_bounds : ∀ {cs : List Char} {fy q : Nat},
    searchFYQ cs = some (fy, q) → fy ≤ 9999 ∧ 1 ≤ q ∧ q ≤ 4 := by
  intro cs
  induction cs with
  | nil =>
    intro fy q h
    exact Option.noConfusion h
  | cons c rest ih =>
    intro fy q h
    rw [searchFYQ] at h
    cases hm : matchFYQAt (c :: rest) with
    | some r =>
      rw [hm] at h
      injection h with h2
      subst h2
      exact matchFYQAt_bounds hm
    | none =>
      rw [hm] at h
      exact ih h

/-- Claim C10: For every filename, `parse_fy_q` returns both a fiscal year
and a quarter or neither (never exactly one); when present, the quarter is
between 1 and 4 and the fiscal year is the value of a 4-digit numeral
(hence at most 9999). -/
theorem c10_parse_fy_q_shape :
    (∀ f : String, (parse_fy_q f).1.isSome = (parse_fy_q f).2.isSome) ∧
    (∀ (f : String) (fy q : Nat), parse_fy_q f = (some fy, some q) →
      fy ≤ 9999 ∧ 1 ≤ q ∧ q ≤ 4) := by
  constructor
  · intro f
    rw [parse_fy_q]
    cases hv : searchFYQ f.data with
    | some r =>
      obtain ⟨a, b⟩ := r
      rfl
    | none => rfl
  · intro f fy q h
    rw [parse_fy_q] at h
    cases hs : searchFYQ f.data with
    | some r =>
      obtain ⟨a, b⟩ := r
      rw [hs] at h
      simp only [Prod.mk.injEq, Option.some.injEq] at h
      obtain ⟨rfl, rfl⟩ := h
      exact searchFYQ_bounds hs
    | none =>
      rw [hs] at h
      simp at h

/-- Witness for C10: the bounds instantiated at a file named FY2020_Q4. -/
theorem c10_parse_fy_q_shape_witness : (2020 : Nat) ≤ 9999 ∧ 1 ≤ 4 ∧ (4 : Nat) ≤ 4 :=
  c10_parse_fy_q_shape.2 "LCA_Disclosure_Data_FY2020_Q4.xlsx" 2020 4 (by decide)

/-! ### C9: batch-mode processing order -/

theorem charListLE_total : ∀ a b : List Char, charListLE a b = true ∨ charListLE b a = true
  | [], _ => Or.inl rfl
  | _ :: _, [] => Or.inr rfl
  | a :: as, b :: bs => by
    rw [charListLE, charListLE]
    by_cases he : a.toNat = b.toNat
    · rw [if_pos he, if_pos he.symm]
      exact charListLE_total as bs
    · rw [if_neg he, if_neg (fun hc => he hc.symm)]
      simp only [decide_eq_true_eq]
      omega

theorem charListLE_trans : ∀ {a b c : List Char},
    charListLE a b = true → charListLE b c = true → charListLE a c = true
  | [], _, _, _, _ => rfl
  | _ :: _, [], _, h1, _ => by simp [charListLE] at h1
  | _ :: _, _ :: _, [], _, h2 => by simp [charListLE] at h2
  | x :: xs, y :: ys, z :: zs, h1, h2 => by
    rw [charListLE] at h1 h2 ⊢
    by_cases e1 : x.toNat = y.toNat
    · rw [if_pos e1] at h1
      by_cases e2 : y.toNat = z.toNat
      · rw [if_pos e2] at h2
        rw [if_pos (e1.trans e2)]
        exact charListLE_trans h1 h2
      · rw [if_neg e2] at h2
        simp only [decide_eq_true_eq] at h2
        rw [if_neg (by omega)]
        simp only [decide_eq_true_eq]
        omega
    · rw [if_neg e1] at h1
      simp only [decide_eq_true_eq] at h1
      by_cases e2 : y.toNat = z.toNat
      · rw [if_neg (by omega)]
        simp only [decide_eq_true_eq]
        omega
      · rw [if_neg e2] at h2
        simp only [decide_eq_true_eq] at h2
        rw [if_neg (by omega)]
        simp only [decide_eq_true_eq]
        omega

theorem keyLE_total (a b : String) : (keyLE a b || keyLE b a) = true := by
  rw [keyLE, keyLE]
  by_cases h1 : (sort_key a).1 = (sort_key b).1
  · by_cases h2 : (sort_key a).2.1 = (sort_key b).2.1
    · rw [if_neg (fun hc => hc h1), if_neg (fun hc => hc h2),
        if_neg (fun hc => hc h1.symm), if_neg (fun hc => hc h2.symm)]
      rcases charListLE_total a.data b.data with h | h <;> simp [h]
    · rw [if_neg (fun hc => hc h1), if_pos h2, if_neg (fun hc => hc h1.symm),
        if_pos (fun hc => h2 hc.symm)]
      simp only [Bool.or_eq_true, decide_eq_true_eq]
      omega
  · rw [if_pos h1, if_pos (fun hc => h1 hc.symm)]
    simp only [Bool.or_eq_true, decide_eq_true_eq]
    omega

theorem keyLE_trans (a b c : String) (h1 : keyLE a b = true) (h2 : keyLE b c = true) :
    keyLE a c = true := by
  rw [keyLE] at h1 h2 ⊢
  by_cases e1 : (sort_key a).1 = (sort_key b).1
  · rw [if_neg (fun hc => hc e1)] at h1
    by_cases e2 : (sort_key b).1 = (sort_key c).1
    · rw [if_neg (fun hc => hc e2)] at h2
      rw [if_neg (fun hc => hc (e1.trans e2))]
      by_cases f1 : (sort_key a).2.1 = (sort_key b).2.1
      · rw [if_neg (fun hc => hc f1)] at h1
        by_cases f2 : (sort_key b).2.1 = (sort_key c).2.1
        · rw [if_neg (fun hc => hc f2)] at h2
          rw [if_neg (fun hc => hc (f1.trans f2))]
          exact charListLE_trans h1 h2
        · rw [if_pos f2] at h2
          simp only [decide_eq_true_eq] at h2
          rw [if_pos (show ¬(sort_key a).2.1 = (sort_key c).2.1 by omega)]
          simp only [decide_eq_true_eq]
          omega
      · rw [if_pos f1] at h1
        simp only [decide_eq_true_eq] at h1
        by_cases f2 : (sort_key b).2.1 = (sort_key c).2.1
        · rw [if_pos (show ¬(sort_key a).2.1 = (sort_key c).2.1 by omega)]
          simp only [decide_eq_true_eq]
          omega
        · rw [if_pos f2] at h2
          simp only [decide_eq_true_eq] at h2
          rw [if_pos (show ¬(sort_key a).2.1 = (sort_key c).2.1 by omega)]
          simp only [decide_eq_true_eq]
          omega
    · rw [if_pos e2] at h2
      simp only [decide_eq_true_eq] at h2
      rw [if_pos (show ¬(sort_key a).1 = (sort_key c).1 by omega)]
      simp only [decide_eq_true_eq]
      omega
  · rw [if_pos e1] at h1
    simp only [decide_eq_true_eq] at h1
    by_cases e2 : (sort_key b).1 = (sort_key c).1
    · rw [if_pos (show ¬(sort_key a).1 = (sort_key c).1 by omega)]
      simp only [decide_eq_true_eq]
      omega
    · rw [if_pos e2] at h2
      simp only [decide_eq_true_eq] at h2
      rw [if_pos (show ¬(sort_key a).1 = (sort_key c).1 by omega)]
      simp only [decide_eq_true_eq]
      omega

/-- Whether the filename carries a recognizable FY/Q pattern. -/
def hasFYQ (f : String) : Bool := (parse_fy_q f).1.isSome

theorem sort_key_has {f : String} (h : hasFYQ f = true) :
    ∃ fy q, parse_fy_q f = (some fy, some q) ∧ sort_key f = (fy, q, f) ∧
      fy ≤ 9999 ∧ 1 ≤ q ∧ q ≤ 4 := by
  cases hs : searchFYQ f.data with
  | none =>
    rw [hasFYQ, parse_fy_q, hs] at h
    cases h
  | some r =>
    obtain ⟨fy, q⟩ := r
    have hp : parse_fy_q f = (some fy, some q) := by rw [parse_fy_q, hs]
    obtain ⟨b1, b2, b3⟩ := searchFYQ_bounds hs
    exact ⟨fy, q, hp, by rw [sort_key, hp]; rfl, b1, b2, b3⟩

theorem sort_key_not_has {f : String} (h : hasFYQ f = false) :
    parse_fy_q f = (none, none) ∧ sort_key f = (9999, 9, f) := by
  cases hs : searchFYQ f.data with
  | none =>
    have hp : parse_fy_q f = (none, none) := by rw [parse_fy_q, hs]
    exact ⟨hp, by rw [sort_key, hp]; rfl⟩
  | some r =>
    obtain ⟨fy, q⟩ := r
    rw [hasFYQ, parse_fy_q, hs] at h
    cases h

/-- The processing order as the specification words it (modelled from the
spec, to be compared with the code's `sort_key` order): fiscal year
ascending, then quarter ascending, files without a recognizable pattern
after every file with one, ties broken by filename. -/
def specOrder (a b : String) : Prop :=
  (∃ fya qa fyb qb, parse_fy_q a = (some fya, some qa) ∧
    parse_fy_q b = (some fyb, some qb) ∧
    (fya < fyb ∨ (fya = fyb ∧ (qa < qb ∨ (qa = qb ∧ charListLE a.data b.data = true)))))
  ∨ ((parse_fy_q a).1.isSome = true ∧ (parse_fy_q b).1 = none)
  ∨ ((parse_fy_q a).1 = none ∧ (parse_fy_q b).1 = none ∧ charListLE a.data b.data = true)

theorem keyLE_imp_specOrder {a b : String} (h : keyLE a b = true) : specOrder a b := by
  by_cases ha : hasFYQ a = true
  · by_cases hb : hasFYQ b = true
    · obtain ⟨fya, qa, hpa, hka, hba1, hba2, hba3⟩ := sort_key_has ha
      obtain ⟨fyb, qb, hpb, hkb, hbb1, hbb2, hbb3⟩ := sort_key_has hb
      left
      refine ⟨fya, qa, fyb, qb, hpa, hpb, ?_⟩
      rw [keyLE, hka, hkb] at h
      by_cases e1 : fya = fyb
      · subst e1
        rw [if_neg (fun hc => hc rfl)] at h
        by_cases e2 : qa = qb
        · subst e2
          rw [if_neg (fun hc => hc rfl)] at h
          exact Or.inr ⟨rfl, Or.inr ⟨rfl, h⟩⟩
        · rw [if_pos e2] at h
          simp only [decide_eq_true_eq] at h
          exact Or.inr ⟨rfl, Or.inl h⟩
      · rw [if_pos e1] at h
        simp only [decide_eq_true_eq] at h
        exact Or.inl h
    · have hb' : hasFYQ b = false := by simpa using hb
      right
      left
      exact ⟨ha, by rw [(sort_key_not_has hb').1]⟩
  · have ha' : hasFYQ a = false := by simpa using ha
    by_cases hb : hasFYQ b = true
    · obtain ⟨fyb, qb, hpb, hkb, hbb1, hbb2, hbb3⟩ := sort_key_has hb
      rw [keyLE, (sort_key_not_has ha').2, hkb] at h
      exfalso
      by_cases e1 : (9999 : Nat) = fyb
      · rw [if_neg (fun hc => hc e1)] at h
        rw [if_pos (show (9 : Nat) ≠ qb by omega)] at h
        simp only [decide_eq_true_eq] at h
        omega
      · rw [if_pos e1] at h
        simp only [decide_eq_true_eq] at h
        omega
    · have hb' : hasFYQ b = false := by simpa using hb
      right
      right
      refine ⟨by rw [(sort_key_not_has ha').1], by rw [(sort_key_not_has hb').1], ?_⟩
      rw [keyLE, (sort_key_not_has ha').2, (sort_key_not_has hb').2] at h
      rw [if_neg (fun hc => hc rfl), if_neg (fun hc => hc rfl)] at h
      exact h

/-- Claim C9: In batch mode the processing order is a permutation of the
matched filenames that is pairwise ordered by the specification's rule:
fiscal year ascending, then quarter ascending, every file lacking a
recognizable FY/Q pattern after all files that have one, ties broken by
filename; in particular a file named with FY2020_Q4 is processed before one
named with FY2021_Q2. -/
theorem c9_batch_order (files : List String) :
    (sortFiles files).Pairwise specOrder ∧
    (sortFiles files).Perm files ∧
    sortFiles ["LCA_Disclosure_Data_FY2021_Q2.xlsx", "LCA_Disclosure_Data_FY2020_Q4.xlsx"]
      = ["LCA_Disclosure_Data_FY2020_Q4.xlsx", "LCA_Disclosure_Data_FY2021_Q2.xlsx"] := by
  refine ⟨?_, List.mergeSort_perm files keyLE, ?_⟩
  · have hs := List.sorted_mergeSort
      (fun a b c => keyLE_trans a b c) (fun a b => keyLE_total a b) files
    exact hs.imp (fun h => keyLE_imp_specOrder h)
  · have hk : keyLE "LCA_Disclosure_Data_FY2021_Q2.xlsx"
        "LCA_Disclosure_Data_FY2020_Q4.xlsx" = false := by decide
    rw [sortFiles]
    simp [List.mergeSort, List.merge, hk]
